import Mathlib

/-!
Shallow embedding of the probset constraint-inference engines
(`src/filters/theory.rs`, `src/filters/bloom.rs`, `src/filters/cuckoo.rs`).

The Rust code computes over `f64`; here every `f64` quantity is modelled as a
real number, with the explicit directional-rounding operations (`floor`,
`ceil`, `round`) of the source made explicit.  `Option<f64>` fields become
`Option ℝ`; the `u64` arguments and accessor results become `ℕ`.
-/

set_option maxHeartbeats 1000000
set_option linter.unusedVariables false

noncomputable section

namespace Probset

/-- The `v as u64` cast applied by the accessors to an `f64` field: the
fractional part is dropped (toward zero) and negative values clamp to `0`.
(Saturation at `2^64` is not modelled; no quantity here approaches it.) -/
def f64toU64 (x : ℝ) : ℕ := (⌊x⌋).toNat

/-- `f64::floor` as an operation on the real model. -/
def ffloor (x : ℝ) : ℝ := ((⌊x⌋ : ℤ) : ℝ)

/-- `f64::ceil` as an operation on the real model. -/
def fceil (x : ℝ) : ℝ := ((⌈x⌉ : ℤ) : ℝ)

/-- `f64::round` (round half away from zero) as an operation on the real model. -/
def fround (x : ℝ) : ℝ :=
  if 0 ≤ x then ((⌊x + 1/2⌋ : ℤ) : ℝ) else -((⌊-x + 1/2⌋ : ℤ) : ℝ)

/-- The `contraints` counter of `theory::Parameters::new` and
`cuckoo::Parameters::new`: how many of the three primary fields were
supplied. -/
def constraintCount (error : Option ℝ) (elements storage : Option ℕ) : ℕ :=
  (if error.isSome then 1 else 0) +
  (if elements.isSome then 1 else 0) +
  (if storage.isSome then 1 else 0)

namespace theory

/-- `theory::Parameters` (all four fields `Option<f64>`). -/
structure Parameters where
  error : Option ℝ
  elements : Option ℝ
  storage : Option ℝ
  bits : Option ℝ

/-- One iteration of the `for _ in 0..2` loop of `theory::Parameters::infer`. -/
def step (p : Parameters) : Parameters :=
  let b1 := p.bits.orElse fun _ => p.error.map fun error => Real.logb 2 (1 / error)
  let b2 := b1.orElse fun _ =>
    p.storage.bind fun storage => p.elements.map fun elements => storage / elements
  match b2 with
  | none => { p with bits := none }
  | some bits =>
    let storage := p.storage.orElse fun _ => p.elements.map fun elements => bits * elements
    let elements := p.elements.orElse fun _ => storage.map fun st => st / bits
    let error := p.error.orElse fun _ => some ((2 : ℝ) ^ (-bits))
    { error := error, elements := elements, storage := storage, bits := some bits }

/-- `theory::Parameters::infer` (the loop body runs twice). -/
def infer (p : Parameters) : Parameters := step (step p)

/-- `theory::Parameters::new`: constraint gate, then inference. -/
def new (error : Option ℝ) (elements storage : Option ℕ) : Parameters :=
  let params : Parameters :=
    { error := error
      elements := elements.map (Nat.cast : ℕ → ℝ)
      storage := storage.map (Nat.cast : ℕ → ℝ)
      bits := none }
  if constraintCount error elements storage = 2 then infer params else params

/-- The `elements()` accessor of the `FilterParameters` impl. -/
def elementsAcc (p : Parameters) : Option ℕ := p.elements.map f64toU64

/-- The `storage()` accessor of the `FilterParameters` impl. -/
def storageAcc (p : Parameters) : Option ℕ := p.storage.map f64toU64

/-- The `bits_per_element()` accessor (returns the `bits` field directly). -/
def bits_per_element (p : Parameters) : Option ℝ := p.bits

end theory

namespace bloom

/-- The constant `c = ln(2) * ln(2)` of `bloom::Parameters::infer`. -/
def c2 : ℝ := Real.log 2 * Real.log 2

/-- `bloom::Parameters`. -/
structure Parameters where
  error : Option ℝ
  elements : Option ℝ
  storage : Option ℝ
  hashes : Option ℝ

/-- One iteration of the `for _ in 0..4` loop of `bloom::Parameters::infer`. -/
def step (p : Parameters) : Parameters :=
  -- elements from storage + error (note: written unconditionally)
  let p1 : Parameters :=
    match p.storage, p.error with
    | some storage, some error =>
      { p with elements := some (ffloor (-(storage * c2 / Real.log error))) }
    | _, _ => p
  match p1.elements with
  | none => p1
  | some elements =>
    -- storage from elements + error (only if storage absent)
    let p2 : Parameters :=
      match p1.error, p1.storage with
      | some error, none =>
        { p1 with storage := some (fceil (-elements * Real.log error / c2)) }
      | _, _ => p1
    match p2.storage with
    | none => p2
    | some storage =>
      -- optimal hash count (clears the error field)
      let p3 : Parameters :=
        if p2.hashes.isNone then
          { p2 with error := none
                    hashes := some (fround (storage / elements * Real.log 2)) }
        else p2
      -- achieved error (clears the storage field)
      if p3.error.isNone then
        { p3 with storage := none
                  error := some (Real.exp (-(storage * c2) / elements)) }
      else p3

/-- `bloom::Parameters::infer` (the loop body runs four times). -/
def infer (p : Parameters) : Parameters := step (step (step (step p)))

/-- `bloom::Parameters::new`: note there is no constraint gate here —
`infer` always runs. -/
def new (error : Option ℝ) (elements storage hashes : Option ℕ) : Parameters :=
  infer
    { error := error
      elements := elements.map (Nat.cast : ℕ → ℝ)
      storage := storage.map (Nat.cast : ℕ → ℝ)
      hashes := hashes.map (Nat.cast : ℕ → ℝ) }

/-- The `elements()` accessor. -/
def elementsAcc (p : Parameters) : Option ℕ := p.elements.map f64toU64

/-- The `storage()` accessor. -/
def storageAcc (p : Parameters) : Option ℕ := p.storage.map f64toU64

/-- The `hashes()` accessor. -/
def hashesAcc (p : Parameters) : Option ℕ := p.hashes.map f64toU64

/-- The `bits_per_element()` accessor: computed on read from the two fields. -/
def bits_per_element (p : Parameters) : Option ℝ :=
  p.storage.bind fun storage => p.elements.map fun elements => storage / elements

end bloom

namespace cuckoo

/-- `cuckoo::Parameters`. -/
structure Parameters where
  error : Option ℝ
  elements : Option ℝ
  storage : Option ℝ
  fingerprint : Option ℝ
  buckets : Option ℝ
  save : ℝ
  hashes : ℝ
  slots : ℝ
  util : ℝ

/-- `cuckoo::Parameters::incomplete`. -/
def incomplete (p : Parameters) : Bool :=
  p.buckets.isNone || p.error.isNone || p.fingerprint.isNone ||
    p.storage.isNone || p.elements.isNone

/-- One iteration of the `for _ in 0..8` loop of `cuckoo::Parameters::infer`. -/
def step (p : Parameters) : Parameters :=
  -- fingerprint from storage + elements + util
  let p1 : Parameters :=
    { p with fingerprint := (p.fingerprint.orElse fun _ =>
        p.elements.bind fun elements =>
          p.storage.map fun storage => ffloor (storage * p.util / elements)) }
  -- fingerprint from error (clears the error, about to be recomputed)
  let p2 : Parameters :=
    match p1.fingerprint with
    | some _ => p1
    | none =>
      match p1.error with
      | none => p1
      | some error =>
        { p1 with error := none
                  fingerprint :=
                    some (fceil (Real.logb 2 (p.util * p.slots * p.hashes / error))) }
  let p6 : Parameters :=
    match p2.fingerprint with
    | none => p2
    | some fingerprint =>
      -- achieved false-positive rate from the fingerprint width:
      -- ok_one = 1 - 2^(-fingerprint), ok_all = ok_one^(slots*hashes*util)
      let p3 : Parameters :=
        { p2 with error := (p2.error.orElse fun _ =>
            some (1 - (1 - (2 : ℝ) ^ (-fingerprint)) ^ (p.slots * p.hashes * p.util))) }
      -- buckets from elements + util
      let p4 : Parameters :=
        { p3 with buckets := (p3.buckets.orElse fun _ =>
            p3.elements.map fun elements =>
              fceil (fceil (elements / p.util) / p.slots)) }
      -- buckets from storage + fingerprint
      let p5 : Parameters :=
        { p4 with buckets := (p4.buckets.orElse fun _ =>
            p4.storage.map fun storage =>
              ffloor (ffloor (storage / fingerprint) / p.slots)) }
      -- storage from buckets + fingerprint
      { p5 with storage := (p5.storage.orElse fun _ =>
          p5.buckets.map fun buckets => buckets * p.slots * fingerprint) }
  -- elements from buckets + util (outside the fingerprint block in the source)
  { p6 with elements := (p6.elements.orElse fun _ =>
      p6.buckets.map fun buckets => ffloor (buckets * p.slots * p.util)) }

/-- The `for _ in 0..8 { if !self.incomplete() { break } ... }` loop. -/
def loop : ℕ → Parameters → Parameters
  | 0, p => p
  | Nat.succ n, p => if incomplete p then loop n (step p) else p

/-- `cuckoo::Parameters::infer`. -/
def infer (p : Parameters) : Parameters := loop 8 p

/-- The `save` constant ("bits saved per cell by partial sorting"):
`(Σ_{i=1}^{slots} log2 i) / slots` when `sorted`, else `0`. -/
def saveOf (slots : ℕ) (sorted : Bool) : ℝ :=
  if sorted then (∑ i in Finset.Icc 1 slots, Real.logb 2 (i : ℝ)) / (slots : ℝ)
  else 0

/-- `cuckoo::Parameters::new`: save precomputation, constraint gate, inference. -/
def new (error : Option ℝ) (elements storage : Option ℕ)
    (hashes slots : ℕ) (util : ℝ) (sorted : Bool) : Parameters :=
  let params : Parameters :=
    { error := error
      elements := elements.map (Nat.cast : ℕ → ℝ)
      storage := storage.map (Nat.cast : ℕ → ℝ)
      fingerprint := none
      buckets := none
      save := saveOf slots sorted
      hashes := (hashes : ℝ)
      slots := (slots : ℝ)
      util := util }
  if constraintCount error elements storage = 2 then infer params else params

/-- The `elements()` accessor. -/
def elementsAcc (p : Parameters) : Option ℕ := p.elements.map f64toU64

/-- The `storage()` accessor. -/
def storageAcc (p : Parameters) : Option ℕ := p.storage.map f64toU64

/-- The `fingerprint()` accessor. -/
def fingerprintAcc (p : Parameters) : Option ℕ := p.fingerprint.map f64toU64

/-- The `buckets()` accessor. -/
def bucketsAcc (p : Parameters) : Option ℕ := p.buckets.map f64toU64

/-- The `bits_per_element()` accessor: computed on read from the two fields. -/
def bits_per_element (p : Parameters) : Option ℝ :=
  p.storage.bind fun storage => p.elements.map fun elements => storage / elements

end cuckoo

end Probset

end

noncomputable section
namespace Probset

lemma ffloor_le (x : ℝ) : ffloor x ≤ x := Int.floor_le x

lemma le_fceil (x : ℝ) : x ≤ fceil x := Int.le_ceil x

lemma ffloor_natCast (n : ℕ) : ffloor (n : ℝ) = n := by
  simp [ffloor]

lemma fceil_natCast (n : ℕ) : fceil (n : ℝ) = n := by
  simp [fceil]

lemma fceil_fceil (x : ℝ) : fceil (fceil x) = fceil x := by
  simp [fceil]

lemma f64toU64_natCast (n : ℕ) : f64toU64 (n : ℝ) = n := by
  simp [f64toU64]

lemma f64toU64_fceil_cast (y : ℝ) (hy : 0 ≤ y) :
    ((f64toU64 (fceil y) : ℕ) : ℝ) = fceil y := by
  have h : (0 : ℤ) ≤ ⌈y⌉ := Int.ceil_nonneg hy
  simp only [f64toU64, fceil, Int.floor_intCast]
  exact_mod_cast Int.toNat_of_nonneg h

lemma f64toU64_ffloor_cast (y : ℝ) (hy : 0 ≤ y) :
    ((f64toU64 (ffloor y) : ℕ) : ℝ) = ffloor y := by
  have h : (0 : ℤ) ≤ ⌊y⌋ := Int.floor_nonneg.mpr hy
  simp only [f64toU64, ffloor, Int.floor_intCast]
  exact_mod_cast Int.toNat_of_nonneg h

namespace theory

lemma step_err_el (e el : ℝ) :
    step ⟨some e, some el, none, none⟩ =
      ⟨some e, some el, some (Real.logb 2 (1/e) * el), some (Real.logb 2 (1/e))⟩ := by
  simp [step, Option.some_orElse', Option.none_orElse']

lemma step_el_st (el st : ℝ) :
    step ⟨none, some el, some st, none⟩ =
      ⟨some ((2:ℝ) ^ (-(st / el))), some el, some st, some (st / el)⟩ := by
  simp [step, Option.some_orElse', Option.none_orElse']

lemma step_err_st (e st : ℝ) :
    step ⟨some e, none, some st, none⟩ =
      ⟨some e, some (st / Real.logb 2 (1/e)), some st, some (Real.logb 2 (1/e))⟩ := by
  simp [step, Option.some_orElse', Option.none_orElse']

lemma step_all_known (e el st b : ℝ) :
    step ⟨some e, some el, some st, some b⟩ = ⟨some e, some el, some st, some b⟩ := by
  simp [step, Option.some_orElse', Option.none_orElse']

lemma new_ee (e : ℝ) (n : ℕ) :
    new (some e) (some n) none =
      ⟨some e, some ((n:ℕ):ℝ), some (Real.logb 2 (1/e) * n), some (Real.logb 2 (1/e))⟩ := by
  rw [new, if_pos (show constraintCount (some e) (some n) none = 2 from rfl)]
  show infer ⟨some e, some ((n:ℕ):ℝ), none, none⟩ = _
  rw [infer, step_err_el, step_all_known]

end theory

/-- C4: Theory round-trip. For every `error ∈ (0,1)` and `elements > 0`, resolving
from `(error, elements)` yields a storage value from which a fresh Theory
resolution of `(storage, elements)` reproduces the original error exactly (the
engine applies no rounding, so over the real model the round trip is exact). -/
theorem C4_theory_roundtrip (e : ℝ) (n : ℕ) (he : 0 < e) (he1 : e < 1) (hn : 0 < n) :
    ∀ st : ℝ, (theory.new (some e) (some n) none).storage = some st →
      (theory.infer ⟨none, some ((n : ℕ) : ℝ), some st, none⟩).error = some e := by
  intro st hst
  rw [theory.new_ee] at hst
  simp only [Option.some.injEq] at hst
  subst hst
  have hel : ((n:ℕ):ℝ) ≠ 0 := by positivity
  rw [theory.infer, theory.step_el_st, theory.step_all_known]
  simp only [Option.some.injEq]
  rw [mul_div_assoc, div_self hel, mul_one,
    Real.rpow_neg (by norm_num : (0:ℝ) ≤ 2),
    Real.rpow_logb (by norm_num) (by norm_num) (by positivity : (0:ℝ) < 1/e)]
  simp

/-- Witness for C4 at `error = 1/2`, `elements = 1`. -/
theorem C4_theory_roundtrip_witness :
    (0:ℝ) < 1/2 ∧ (1/2:ℝ) < 1 ∧ 0 < 1 ∧
      (theory.infer ⟨none, some ((1:ℕ):ℝ),
        some (Real.logb 2 (1/(1/2)) * (1:ℕ)), none⟩).error = some (1/2) := by
  refine ⟨by norm_num, by norm_num, by norm_num, ?_⟩
  exact C4_theory_roundtrip (1/2) 1 (by norm_num) (by norm_num) (by norm_num) _
    (by rw [theory.new_ee])

lemma logb2_100_lb : (6643:ℝ) < Real.logb 2 100 * 1000 := by
  have l2 : (0:ℝ) < Real.log 2 := Real.log_pos (by norm_num)
  have hpow : ((2:ℝ))^(6643:ℕ) < ((100:ℝ))^(1000:ℕ) := by
    exact_mod_cast (by norm_num : (2:ℕ)^6643 < 100^1000)
  have hl : Real.log ((2:ℝ)^(6643:ℕ)) < Real.log ((100:ℝ)^(1000:ℕ)) :=
    Real.log_lt_log (by positivity) hpow
  rw [Real.log_pow, Real.log_pow] at hl
  rw [Real.logb, div_mul_eq_mul_div, lt_div_iff l2]
  push_cast at hl ⊢
  nlinarith [hl]

lemma logb2_100_ub : Real.logb 2 100 * 1000 < 6644 := by
  have l2 : (0:ℝ) < Real.log 2 := Real.log_pos (by norm_num)
  have hpow : ((100:ℝ))^(1000:ℕ) < ((2:ℝ))^(6644:ℕ) := by
    exact_mod_cast (by norm_num : (100:ℕ)^1000 < 2^6644)
  have hl : Real.log ((100:ℝ)^(1000:ℕ)) < Real.log ((2:ℝ)^(6644:ℕ)) :=
    Real.log_lt_log (by positivity) hpow
  rw [Real.log_pow, Real.log_pow] at hl
  rw [Real.logb, div_mul_eq_mul_div, div_lt_iff l2]
  push_cast at hl ⊢
  nlinarith [hl]

/-- C10: Accessor truncation. At `error = 1/100`, `elements = 1000` the Theory
engine stores the continuous value `logb 2 100 * 1000 ≈ 6643.86` in its
`storage` field; the `storage()` accessor (`v as u64`) reports its truncation
`6643`, which is strictly smaller than the real value the engine computed. -/
theorem C10_accessor_truncation :
    (theory.new (some (1/100)) (some 1000) none).storage =
        some (Real.logb 2 100 * ((1000:ℕ):ℝ)) ∧
      theory.storageAcc (theory.new (some (1/100)) (some 1000) none) = some 6643 ∧
      (6643 : ℝ) < Real.logb 2 100 * ((1000:ℕ):ℝ) := by
  have h100 : (1:ℝ)/(1/100) = 100 := by norm_num
  have hnew := theory.new_ee (1/100) 1000
  rw [h100] at hnew
  have hfloor : (⌊Real.logb 2 100 * ((1000:ℕ):ℝ)⌋ : ℤ) = 6643 := by
    rw [Int.floor_eq_iff]
    constructor
    · push_cast
      exact le_of_lt (by exact_mod_cast logb2_100_lb)
    · push_cast
      exact_mod_cast logb2_100_ub
  refine ⟨by rw [hnew], ?_, by exact_mod_cast logb2_100_lb⟩
  rw [theory.storageAcc, hnew]
  simp only [Option.map_some', f64toU64, hfloor]
  rfl

namespace bloom

lemma step_empty (h : Option ℝ) : step ⟨none, none, none, h⟩ = ⟨none, none, none, h⟩ := by
  simp [step]

lemma step_only_e (e : ℝ) (h : Option ℝ) :
    step ⟨some e, none, none, h⟩ = ⟨some e, none, none, h⟩ := by
  simp [step]

lemma step_only_el (el : ℝ) (h : Option ℝ) :
    step ⟨none, some el, none, h⟩ = ⟨none, some el, none, h⟩ := by
  simp [step]

lemma step_only_st (st : ℝ) (h : Option ℝ) :
    step ⟨none, none, some st, h⟩ = ⟨none, none, some st, h⟩ := by
  simp [step]

end bloom

/-- C1 counterexample: the Bloom engine has no constraint gate.  With all three
primaries supplied (`error = 1/2`, `elements = 10`, `storage = 100`) inference
still runs and populates the derived `hashes` field, so the input is not
returned with every derived field `Unknown`. -/
theorem C1_bloom_gate_cex :
    (bloom.new (some (1/2)) (some 10) (some 100) none).hashes ≠ none := by
  rw [bloom.new]
  simp only [Option.map_some', Option.map_none']
  rw [bloom.infer]
  simp [bloom.step, Option.some_orElse', Option.none_orElse']

/-- C1 amended: the constraint gate holds for the Theory and Cuckoo engines
(with 0, 1 or 3 primaries, construction echoes the input and the derived
fields `bits` resp. `fingerprint`/`buckets` stay `Unknown`); the Bloom engine
always runs inference, but with 0 or 1 primaries supplied inference changes
nothing, so the input is still echoed. -/
theorem C1_constraint_gate_amended (e : Option ℝ) (el st hn : Option ℕ)
    (hsh sl : ℕ) (u : ℝ) (srt : Bool) :
    (constraintCount e el st ≠ 2 →
      theory.new e el st =
        ⟨e, el.map (Nat.cast : ℕ → ℝ), st.map (Nat.cast : ℕ → ℝ), none⟩) ∧
    (constraintCount e el st ≠ 2 →
      cuckoo.new e el st hsh sl u srt =
        ⟨e, el.map (Nat.cast : ℕ → ℝ), st.map (Nat.cast : ℕ → ℝ), none, none,
         cuckoo.saveOf sl srt, (hsh:ℝ), (sl:ℝ), u⟩) ∧
    (constraintCount e el st ≤ 1 →
      bloom.new e el st hn =
        ⟨e, el.map (Nat.cast : ℕ → ℝ), st.map (Nat.cast : ℕ → ℝ),
         hn.map (Nat.cast : ℕ → ℝ)⟩) := by
  refine ⟨fun hg => ?_, fun hg => ?_, fun hb => ?_⟩
  · simp only [theory.new]
    rw [if_neg hg]
  · simp only [cuckoo.new]
    rw [if_neg hg]
  · rw [bloom.new]
    rcases e with _ | ev
    · rcases el with _ | elv
      · rcases st with _ | stv
        · simp only [Option.map_none']
          rw [bloom.infer, bloom.step_empty, bloom.step_empty, bloom.step_empty,
            bloom.step_empty]
        · simp only [Option.map_none', Option.map_some']
          rw [bloom.infer, bloom.step_only_st, bloom.step_only_st, bloom.step_only_st,
            bloom.step_only_st]
      · rcases st with _ | stv
        · simp only [Option.map_none', Option.map_some']
          rw [bloom.infer, bloom.step_only_el, bloom.step_only_el, bloom.step_only_el,
            bloom.step_only_el]
        · simp [constraintCount] at hb
    · rcases el with _ | elv
      · rcases st with _ | stv
        · simp only [Option.map_none', Option.map_some']
          rw [bloom.infer, bloom.step_only_e, bloom.step_only_e, bloom.step_only_e,
            bloom.step_only_e]
        · simp [constraintCount] at hb
      · rcases st with _ | stv <;> simp [constraintCount] at hb

/-- Witness for C1 amended at one supplied primary (`error = 1/2`). -/
theorem C1_constraint_gate_amended_witness :
    constraintCount (some (1/2)) none none ≠ 2 ∧
      constraintCount (some (1/2)) none none ≤ 1 ∧
      theory.new (some (1/2)) none none = ⟨some (1/2), none, none, none⟩ ∧
      cuckoo.new (some (1/2)) none none 2 4 (9/10) false =
        ⟨some (1/2), none, none, none, none, cuckoo.saveOf 4 false, (2:ℝ), (4:ℝ), 9/10⟩ ∧
      bloom.new (some (1/2)) none none none = ⟨some (1/2), none, none, none⟩ := by
  have h := C1_constraint_gate_amended (some (1/2)) none none none 2 4 (9/10) false
  refine ⟨by simp [constraintCount], by simp [constraintCount], ?_, ?_, ?_⟩
  · simpa using h.1 (by simp [constraintCount])
  · simpa using h.2.1 (by simp [constraintCount])
  · simpa using h.2.2 (by simp [constraintCount])

namespace cuckoo

lemma step_save (p : Parameters) (x : ℝ) :
    step { p with save := x } = { step p with save := x } := by
  rcases p with ⟨e, el, st, fp, b, sv, h, s, u⟩
  rcases e with _ | e <;> rcases el with _ | el <;> rcases st with _ | st <;>
    rcases fp with _ | fp <;> rcases b with _ | b <;>
      simp [step, Option.some_orElse', Option.none_orElse']

lemma incomplete_save (p : Parameters) (x : ℝ) :
    incomplete { p with save := x } = incomplete p := by
  rcases p with ⟨e, el, st, fp, b, sv, h, s, u⟩
  rfl

lemma loop_save (k : ℕ) : ∀ (p : Parameters) (x : ℝ),
    loop k { p with save := x } = { loop k p with save := x } := by
  induction k with
  | zero => intro p x; rfl
  | succ n ih =>
    intro p x
    simp only [loop, incomplete_save]
    by_cases h : incomplete p = true
    · rw [if_pos h, if_pos h, step_save, ih]
    · rw [if_neg h, if_neg h]

lemma new_sorted (e : Option ℝ) (el st : Option ℕ) (hsh sl : ℕ) (u : ℝ) :
    new e el st hsh sl u true = { new e el st hsh sl u false with save := saveOf sl true } := by
  simp only [new]
  by_cases h : constraintCount e el st = 2
  · rw [if_pos h, if_pos h]
    simp only [infer]
    exact loop_save 8
      ⟨e, Option.map Nat.cast el, Option.map Nat.cast st, none, none,
        saveOf sl false, (hsh : ℝ), (sl : ℝ), u⟩ (saveOf sl true)
  · rw [if_neg h, if_neg h]

lemma save_error (p : Parameters) (x : ℝ) :
    ({ p with save := x } : Parameters).error = p.error := by
  rcases p with ⟨e, el, st, fp, b, sv, h, s, u⟩; rfl

lemma save_elements (p : Parameters) (x : ℝ) :
    ({ p with save := x } : Parameters).elements = p.elements := by
  rcases p with ⟨e, el, st, fp, b, sv, h, s, u⟩; rfl

lemma save_storage (p : Parameters) (x : ℝ) :
    ({ p with save := x } : Parameters).storage = p.storage := by
  rcases p with ⟨e, el, st, fp, b, sv, h, s, u⟩; rfl

lemma save_fingerprint (p : Parameters) (x : ℝ) :
    ({ p with save := x } : Parameters).fingerprint = p.fingerprint := by
  rcases p with ⟨e, el, st, fp, b, sv, h, s, u⟩; rfl

lemma save_buckets (p : Parameters) (x : ℝ) :
    ({ p with save := x } : Parameters).buckets = p.buckets := by
  rcases p with ⟨e, el, st, fp, b, sv, h, s, u⟩; rfl

lemma save_bpe (p : Parameters) (x : ℝ) :
    bits_per_element ({ p with save := x } : Parameters) = bits_per_element p := by
  rcases p with ⟨e, el, st, fp, b, sv, h, s, u⟩; rfl

end cuckoo

/-- C8: the partial-sort `sorted` flag influences only the precomputed `save`
constant; every output field of Cuckoo resolution (error, elements, storage,
fingerprint, buckets, bitsPerElement) is identical for `sorted = true` and
`sorted = false` on every input. -/
theorem C8_sorted_independent (e : Option ℝ) (el st : Option ℕ) (hsh sl : ℕ) (u : ℝ) :
    (cuckoo.new e el st hsh sl u true).error = (cuckoo.new e el st hsh sl u false).error ∧
      (cuckoo.new e el st hsh sl u true).elements =
        (cuckoo.new e el st hsh sl u false).elements ∧
      (cuckoo.new e el st hsh sl u true).storage =
        (cuckoo.new e el st hsh sl u false).storage ∧
      (cuckoo.new e el st hsh sl u true).fingerprint =
        (cuckoo.new e el st hsh sl u false).fingerprint ∧
      (cuckoo.new e el st hsh sl u true).buckets =
        (cuckoo.new e el st hsh sl u false).buckets ∧
      cuckoo.bits_per_element (cuckoo.new e el st hsh sl u true) =
        cuckoo.bits_per_element (cuckoo.new e el st hsh sl u false) := by
  rw [cuckoo.new_sorted]
  exact ⟨cuckoo.save_error _ _, cuckoo.save_elements _ _, cuckoo.save_storage _ _,
    cuckoo.save_fingerprint _ _, cuckoo.save_buckets _ _, cuckoo.save_bpe _ _⟩

namespace cuckoo

lemma loop_exit (k : ℕ) (q : Parameters) (hq : incomplete q = false) : loop k q = q := by
  cases k with
  | zero => rfl
  | succ n =>
    simp only [loop]
    rw [if_neg]
    simp [hq]

lemma infer_one (p : Parameters) (hp : incomplete p = true)
    (hq : incomplete (step p) = false) : infer p = step p := by
  rw [infer]
  simp only [loop]
  rw [if_pos hp]
  exact loop_exit 7 _ hq

lemma step_A (e u el h s sv : ℝ) :
    step ⟨some e, some el, none, none, none, sv, h, s, u⟩ =
      ⟨some (1 - (1 - (2:ℝ) ^ (-(fceil (Real.logb 2 (u * s * h / e))))) ^ (s * h * u)),
       some el,
       some (fceil (fceil (el / u) / s) * s * fceil (Real.logb 2 (u * s * h / e))),
       some (fceil (Real.logb 2 (u * s * h / e))),
       some (fceil (fceil (el / u) / s)), sv, h, s, u⟩ := by
  simp [step, Option.some_orElse', Option.none_orElse']

lemma step_B (e u st h s sv : ℝ) :
    step ⟨some e, none, some st, none, none, sv, h, s, u⟩ =
      ⟨some (1 - (1 - (2:ℝ) ^ (-(fceil (Real.logb 2 (u * s * h / e))))) ^ (s * h * u)),
       some (ffloor (ffloor (ffloor (st / fceil (Real.logb 2 (u * s * h / e))) / s) * s * u)),
       some st,
       some (fceil (Real.logb 2 (u * s * h / e))),
       some (ffloor (ffloor (st / fceil (Real.logb 2 (u * s * h / e))) / s)),
       sv, h, s, u⟩ := by
  simp [step, Option.some_orElse', Option.none_orElse']

lemma step_C (u el st h s sv : ℝ) :
    step ⟨none, some el, some st, none, none, sv, h, s, u⟩ =
      ⟨some (1 - (1 - (2:ℝ) ^ (-(ffloor (st * u / el)))) ^ (s * h * u)),
       some el, some st, some (ffloor (st * u / el)),
       some (fceil (fceil (el / u) / s)), sv, h, s, u⟩ := by
  simp [step, Option.some_orElse', Option.none_orElse']

lemma new_A (e u : ℝ) (n hsh sl : ℕ) (srt : Bool) :
    new (some e) (some n) none hsh sl u srt =
      ⟨some (1 - (1 - (2:ℝ) ^ (-(fceil (Real.logb 2 (u * (sl:ℝ) * (hsh:ℝ) / e))))) ^
          ((sl:ℝ) * (hsh:ℝ) * u)),
       some ((n:ℕ):ℝ),
       some (fceil (fceil (((n:ℕ):ℝ) / u) / (sl:ℝ)) * (sl:ℝ) *
         fceil (Real.logb 2 (u * (sl:ℝ) * (hsh:ℝ) / e))),
       some (fceil (Real.logb 2 (u * (sl:ℝ) * (hsh:ℝ) / e))),
       some (fceil (fceil (((n:ℕ):ℝ) / u) / (sl:ℝ))),
       saveOf sl srt, (hsh:ℝ), (sl:ℝ), u⟩ := by
  rw [new, if_pos (show constraintCount (some e) (some n) none = 2 from rfl)]
  simp only [Option.map_some', Option.map_none']
  rw [infer_one ⟨some e, some ((n:ℕ):ℝ), none, none, none, saveOf sl srt,
      (hsh:ℝ), (sl:ℝ), u⟩ rfl (by rw [step_A]; rfl), step_A]

lemma new_B (e u : ℝ) (m hsh sl : ℕ) (srt : Bool) :
    new (some e) none (some m) hsh sl u srt =
      ⟨some (1 - (1 - (2:ℝ) ^ (-(fceil (Real.logb 2 (u * (sl:ℝ) * (hsh:ℝ) / e))))) ^
          ((sl:ℝ) * (hsh:ℝ) * u)),
       some (ffloor (ffloor (ffloor (((m:ℕ):ℝ) /
         fceil (Real.logb 2 (u * (sl:ℝ) * (hsh:ℝ) / e))) / (sl:ℝ)) * (sl:ℝ) * u)),
       some ((m:ℕ):ℝ),
       some (fceil (Real.logb 2 (u * (sl:ℝ) * (hsh:ℝ) / e))),
       some (ffloor (ffloor (((m:ℕ):ℝ) /
         fceil (Real.logb 2 (u * (sl:ℝ) * (hsh:ℝ) / e))) / (sl:ℝ))),
       saveOf sl srt, (hsh:ℝ), (sl:ℝ), u⟩ := by
  rw [new, if_pos (show constraintCount (some e) none (some m) = 2 from rfl)]
  simp only [Option.map_some', Option.map_none']
  rw [infer_one ⟨some e, none, some ((m:ℕ):ℝ), none, none, saveOf sl srt,
      (hsh:ℝ), (sl:ℝ), u⟩ rfl (by rw [step_B]; rfl), step_B]

lemma new_C (u : ℝ) (n m hsh sl : ℕ) (srt : Bool) :
    new none (some n) (some m) hsh sl u srt =
      ⟨some (1 - (1 - (2:ℝ) ^ (-(ffloor (((m:ℕ):ℝ) * u / ((n:ℕ):ℝ))))) ^
          ((sl:ℝ) * (hsh:ℝ) * u)),
       some ((n:ℕ):ℝ), some ((m:ℕ):ℝ),
       some (ffloor (((m:ℕ):ℝ) * u / ((n:ℕ):ℝ))),
       some (fceil (fceil (((n:ℕ):ℝ) / u) / (sl:ℝ))),
       saveOf sl srt, (hsh:ℝ), (sl:ℝ), u⟩ := by
  rw [new, if_pos (show constraintCount none (some n) (some m) = 2 from rfl)]
  simp only [Option.map_some', Option.map_none']
  rw [infer_one ⟨none, some ((n:ℕ):ℝ), some ((m:ℕ):ℝ), none, none, saveOf sl srt,
      (hsh:ℝ), (sl:ℝ), u⟩ rfl (by rw [step_C]; rfl), step_C]

end cuckoo

lemma theory_step_preserves (p : theory.Parameters) :
    (∀ v, p.error = some v → (theory.step p).error = some v) ∧
      (∀ v, p.elements = some v → (theory.step p).elements = some v) ∧
      (∀ v, p.storage = some v → (theory.step p).storage = some v) ∧
      (∀ v, p.bits = some v → (theory.step p).bits = some v) := by
  rcases p with ⟨e, el, st, b⟩
  rcases e with _ | e <;> rcases el with _ | el <;> rcases st with _ | st <;>
    rcases b with _ | b <;>
      simp [theory.step, Option.some_orElse', Option.none_orElse']

lemma cuckoo_step_preserves (p : cuckoo.Parameters) :
    (∀ v, p.elements = some v → (cuckoo.step p).elements = some v) ∧
      (∀ v, p.storage = some v → (cuckoo.step p).storage = some v) ∧
      (∀ v, p.fingerprint = some v → (cuckoo.step p).fingerprint = some v) ∧
      (∀ v, p.buckets = some v → (cuckoo.step p).buckets = some v) := by
  rcases p with ⟨e, el, st, fp, b, sv, h, s, u⟩
  rcases e with _ | e <;> rcases el with _ | el <;> rcases st with _ | st <;>
    rcases fp with _ | fp <;> rcases b with _ | b <;>
      simp [cuckoo.step, Option.some_orElse', Option.none_orElse']

lemma bloom_step_preserves_hashes (p : bloom.Parameters) :
    ∀ v, p.hashes = some v → (bloom.step p).hashes = some v := by
  rcases p with ⟨e, el, st, h⟩
  rcases e with _ | e <;> rcases el with _ | el <;> rcases st with _ | st <;>
    rcases h with _ | h <;>
      simp [bloom.step, Option.some_orElse', Option.none_orElse']

lemma logb_two_sixteen : Real.logb 2 16 = 4 := by
  rw [show (16:ℝ) = 2^(4:ℕ) by norm_num, Real.logb_pow, Real.logb_self_eq_one] <;> norm_num

lemma fceil_logb_two_sixteen : fceil (Real.logb 2 16) = 4 := by
  rw [logb_two_sixteen, fceil]
  norm_num

/-- C2 counterexample: a user-supplied primary is invalidated.  With
user-supplied `error = 1/2` and `elements = 1`, the Cuckoo error-driven
fingerprint rule clears the supplied error and recomputes the achieved error
`1 - (15/16)^8 ≈ 0.403`, which differs from the supplied `1/2`. -/
theorem C2_overwrite_cex :
    (cuckoo.new (some (1/2)) (some 1) none 2 4 1 false).error =
        some (1 - ((15:ℝ)/16) ^ (8:ℕ)) ∧
      some (1 - ((15:ℝ)/16) ^ (8:ℕ)) ≠ (some (1/2) : Option ℝ) := by
  constructor
  · rw [cuckoo.new_A]
    refine congrArg some ?_
    have harg : (1:ℝ) * ((4:ℕ):ℝ) * ((2:ℕ):ℝ) / (1/2) = 16 := by norm_num
    rw [harg, fceil_logb_two_sixteen]
    have h2 : (2:ℝ) ^ (-(4:ℝ)) = 1/16 := by
      rw [Real.rpow_neg (by norm_num : (0:ℝ) ≤ 2),
        show ((4:ℝ) = ((4:ℕ):ℝ)) by norm_num, Real.rpow_natCast]
      norm_num
    rw [h2]
    have hexp : ((4:ℕ):ℝ) * ((2:ℕ):ℝ) * 1 = ((8:ℕ):ℝ) := by norm_num
    rw [hexp, Real.rpow_natCast]
    norm_num
  · intro h
    have h' : 1 - ((15:ℝ)/16) ^ (8:ℕ) = 1/2 := Option.some.inj h
    norm_num at h'

/-- C2 amended: fill-if-absent holds for every Theory rule (no field is ever
overwritten), for the Cuckoo fields elements/storage/fingerprint/buckets, and
for Bloom's hashes field.  (The exceptions the code actually contains: Cuckoo's
error-driven fingerprint rule clears even a user-supplied error; Bloom's rule 1
overwrites elements whenever storage and error are known, deriving hashes
clears a possibly user-supplied error, and the achieved-error recomputation
clears storage.) -/
theorem C2_fill_if_absent_amended (pt : theory.Parameters) (pc : cuckoo.Parameters)
    (pb : bloom.Parameters) :
    (∀ v, pt.error = some v → (theory.step pt).error = some v) ∧
      (∀ v, pt.elements = some v → (theory.step pt).elements = some v) ∧
      (∀ v, pt.storage = some v → (theory.step pt).storage = some v) ∧
      (∀ v, pt.bits = some v → (theory.step pt).bits = some v) ∧
      (∀ v, pc.elements = some v → (cuckoo.step pc).elements = some v) ∧
      (∀ v, pc.storage = some v → (cuckoo.step pc).storage = some v) ∧
      (∀ v, pc.fingerprint = some v → (cuckoo.step pc).fingerprint = some v) ∧
      (∀ v, pc.buckets = some v → (cuckoo.step pc).buckets = some v) ∧
      (∀ v, pb.hashes = some v → (bloom.step pb).hashes = some v) := by
  obtain ⟨h1, h2, h3, h4⟩ := theory_step_preserves pt
  obtain ⟨h5, h6, h7, h8⟩ := cuckoo_step_preserves pc
  exact ⟨h1, h2, h3, h4, h5, h6, h7, h8, bloom_step_preserves_hashes pb⟩

/-- Witness for C2 amended at concrete fully-populated parameter sets. -/
theorem C2_fill_if_absent_amended_witness :
    (theory.step ⟨some 1, some 2, some 3, some 4⟩).error = some 1 ∧
      (cuckoo.step ⟨some 1, some 2, some 3, some 4, some 5, 0, 2, 4, 1⟩).buckets = some 5 ∧
      (bloom.step ⟨none, none, none, some 7⟩).hashes = some 7 := by
  refine ⟨?_, ?_, ?_⟩
  · exact (C2_fill_if_absent_amended ⟨some 1, some 2, some 3, some 4⟩
      ⟨some 1, some 2, some 3, some 4, some 5, 0, 2, 4, 1⟩ ⟨none, none, none, some 7⟩).1 1 rfl
  · exact (C2_fill_if_absent_amended ⟨some 1, some 2, some 3, some 4⟩
      ⟨some 1, some 2, some 3, some 4, some 5, 0, 2, 4, 1⟩
      ⟨none, none, none, some 7⟩).2.2.2.2.2.2.2.1 5 rfl
  · exact (C2_fill_if_absent_amended ⟨some 1, some 2, some 3, some 4⟩
      ⟨some 1, some 2, some 3, some 4, some 5, 0, 2, 4, 1⟩
      ⟨none, none, none, some 7⟩).2.2.2.2.2.2.2.2 7 rfl

lemma ceil_logb_two_fifth : (⌈Real.logb 2 ((1:ℝ)/5)⌉ : ℤ) = -2 := by
  have h5 : (0:ℝ) < 5 := by norm_num
  have hlb : (2:ℝ) ≤ Real.logb 2 5 := by
    rw [Real.le_logb_iff_rpow_le (by norm_num : (1:ℝ) < 2) h5,
      show ((2:ℝ) = ((2:ℕ):ℝ)) by norm_num, Real.rpow_natCast]
    norm_num
  have hub : Real.logb 2 5 < 3 := by
    rw [Real.logb_lt_iff_lt_rpow (by norm_num : (1:ℝ) < 2) h5,
      show ((3:ℝ) = ((3:ℕ):ℝ)) by norm_num, Real.rpow_natCast]
    norm_num
  have hinv : Real.logb 2 ((1:ℝ)/5) = -Real.logb 2 5 := by
    rw [one_div, Real.logb_inv]
  rw [hinv, Int.ceil_eq_iff]
  constructor
  · push_cast
    linarith
  · push_cast
    linarith

/-- C6 counterexample: with `error = 1/2` and the valid hyperparameters
`hashes = 1`, `slots = 1`, `util = 1/10`, the error-driven fingerprint is
`ceil(log2((1/10)/(1/2))) = -2 < 1`. -/
theorem C6_fingerprint_cex :
    (cuckoo.new (some (1/2)) (some 10) none 1 1 (1/10) false).fingerprint =
        some (((-2 : ℤ) : ℝ)) ∧ (((-2 : ℤ) : ℝ)) < 1 := by
  constructor
  · rw [cuckoo.new_A]
    refine congrArg some ?_
    have harg : (1/10:ℝ) * ((1:ℕ):ℝ) * ((1:ℕ):ℝ) / (1/2) = 1/5 := by norm_num
    rw [harg, fceil, ceil_logb_two_fifth]
  · norm_num

/-- C6 amended: the error-driven fingerprint `ceil(log2(util*slots*hashes/error))`
is at least 1 provided additionally `error < util * slots * hashes` (for both
input shapes on which that rule fires). -/
theorem C6_fingerprint_amended (e u : ℝ) (n m hsh sl : ℕ) (srt : Bool)
    (he : 0 < e) (he1 : e < 1) (hh : 1 ≤ hsh) (hs : 1 ≤ sl) (hu : 0 < u) (hu1 : u ≤ 1)
    (hlt : e < u * (sl:ℝ) * (hsh:ℝ)) :
    (∀ f, (cuckoo.new (some e) (some n) none hsh sl u srt).fingerprint = some f → 1 ≤ f) ∧
      (∀ f, (cuckoo.new (some e) none (some m) hsh sl u srt).fingerprint = some f →
        1 ≤ f) := by
  have key : (1:ℝ) ≤ fceil (Real.logb 2 (u * (sl:ℝ) * (hsh:ℝ) / e)) := by
    have hx : 1 < u * (sl:ℝ) * (hsh:ℝ) / e := (one_lt_div he).mpr hlt
    have hpos : 0 < Real.logb 2 (u * (sl:ℝ) * (hsh:ℝ) / e) :=
      Real.logb_pos (by norm_num) hx
    have hz : (0:ℤ) < ⌈Real.logb 2 (u * (sl:ℝ) * (hsh:ℝ) / e)⌉ := Int.ceil_pos.mpr hpos
    rw [fceil]
    exact_mod_cast hz
  constructor
  · intro f hf
    rw [cuckoo.new_A] at hf
    have hf' := Option.some.inj hf
    rw [← hf']
    exact key
  · intro f hf
    rw [cuckoo.new_B] at hf
    have hf' := Option.some.inj hf
    rw [← hf']
    exact key

/-- Witness for C6 amended at `error = 1/2`, `hashes = 2`, `slots = 4`, `util = 1`. -/
theorem C6_fingerprint_amended_witness :
    (0:ℝ) < 1/2 ∧ (1/2:ℝ) < (1:ℝ) * ((4:ℕ):ℝ) * ((2:ℕ):ℝ) ∧
      (1:ℝ) ≤ fceil (Real.logb 2 ((1:ℝ) * ((4:ℕ):ℝ) * ((2:ℕ):ℝ) / (1/2))) := by
  refine ⟨by norm_num, by norm_num, ?_⟩
  exact (C6_fingerprint_amended (1/2) 1 10 100 2 4 false (by norm_num) (by norm_num)
    (by norm_num) (by norm_num) (by norm_num) (by norm_num) (by norm_num)).1 _
    (by rw [cuckoo.new_A])

lemma capacity_core (x u s : ℝ) (hu : 0 < u) (hs : 0 < s) :
    x ≤ fceil (fceil (x / u) / s) * s * u := by
  have h1 : fceil (x / u) / s ≤ fceil (fceil (x / u) / s) := le_fceil _
  have h2 : x / u ≤ fceil (x / u) := le_fceil _
  have h3 : fceil (x / u) ≤ fceil (fceil (x / u) / s) * s := (div_le_iff₀ hs).mp h1
  calc x = (x / u) * u := (div_mul_cancel₀ _ hu.ne').symm
    _ ≤ (fceil (fceil (x / u) / s) * s) * u := by
        apply mul_le_mul_of_nonneg_right _ hu.le
        linarith
    _ = fceil (fceil (x / u) / s) * s * u := rfl

/-- C5: Cuckoo capacity bound.  For every resolved parameter set (each of the
three two-constraint input shapes, hyperparameters `hashes ≥ 1`, `slots ≥ 1`,
`util ∈ (0,1]`), the final elements and buckets values satisfy
`elements ≤ buckets * slots * util`. -/
theorem C5_cuckoo_capacity (e u : ℝ) (n m hsh sl : ℕ) (srt : Bool)
    (he : 0 < e) (he1 : e < 1) (hh : 1 ≤ hsh) (hs : 1 ≤ sl) (hu : 0 < u) (hu1 : u ≤ 1) :
    (∀ elv bv, (cuckoo.new (some e) (some n) none hsh sl u srt).elements = some elv →
      (cuckoo.new (some e) (some n) none hsh sl u srt).buckets = some bv →
      elv ≤ bv * (sl:ℝ) * u) ∧
    (∀ elv bv, (cuckoo.new (some e) none (some m) hsh sl u srt).elements = some elv →
      (cuckoo.new (some e) none (some m) hsh sl u srt).buckets = some bv →
      elv ≤ bv * (sl:ℝ) * u) ∧
    (∀ elv bv, (cuckoo.new none (some n) (some m) hsh sl u srt).elements = some elv →
      (cuckoo.new none (some n) (some m) hsh sl u srt).buckets = some bv →
      elv ≤ bv * (sl:ℝ) * u) := by
  have hspos : (0:ℝ) < (sl:ℝ) := by exact_mod_cast hs
  refine ⟨?_, ?_, ?_⟩
  · intro elv bv h1 h2
    rw [cuckoo.new_A] at h1 h2
    rw [← Option.some.inj h1, ← Option.some.inj h2]
    exact capacity_core _ _ _ hu hspos
  · intro elv bv h1 h2
    rw [cuckoo.new_B] at h1 h2
    rw [← Option.some.inj h1, ← Option.some.inj h2]
    exact ffloor_le _
  · intro elv bv h1 h2
    rw [cuckoo.new_C] at h1 h2
    rw [← Option.some.inj h1, ← Option.some.inj h2]
    exact capacity_core _ _ _ hu hspos

/-- Witness for C5 at `error = 1/2`, `elements = 10`, `slots = 4`, `util = 19/20`. -/
theorem C5_cuckoo_capacity_witness :
    (0:ℝ) < 1/2 ∧ (0:ℝ) < 19/20 ∧
      (((10:ℕ):ℝ) ≤ fceil (fceil (((10:ℕ):ℝ) / (19/20)) / ((4:ℕ):ℝ)) * ((4:ℕ):ℝ) *
        (19/20)) := by
  refine ⟨by norm_num, by norm_num, ?_⟩
  exact (C5_cuckoo_capacity (1/2) (19/20) 10 100 2 4 false (by norm_num) (by norm_num)
    (by norm_num) (by norm_num) (by norm_num) (by norm_num)).1 _ _
    (by rw [cuckoo.new_A]) (by rw [cuckoo.new_A])

namespace bloom

lemma step_ee (e el : ℝ) :
    step ⟨some e, some el, none, none⟩ =
      ⟨some (Real.exp (-(fceil (-el * Real.log e / c2) * c2) / el)), some el, none,
       some (fround (fceil (-el * Real.log e / c2) / el * Real.log 2))⟩ := by
  simp [step, Option.some_orElse', Option.none_orElse']

lemma step_els (el st : ℝ) :
    step ⟨none, some el, some st, none⟩ =
      ⟨some (Real.exp (-(st * c2) / el)), some el, none,
       some (fround (st / el * Real.log 2))⟩ := by
  simp [step, Option.some_orElse', Option.none_orElse']

lemma step_es (e st : ℝ) :
    step ⟨some e, none, some st, none⟩ =
      ⟨some (Real.exp (-(st * c2) / ffloor (-(st * c2 / Real.log e)))),
       some (ffloor (-(st * c2 / Real.log e))), none,
       some (fround (st / ffloor (-(st * c2 / Real.log e)) * Real.log 2))⟩ := by
  simp [step, Option.some_orElse', Option.none_orElse']

lemma step_es_h (e st h : ℝ) :
    step ⟨some e, none, some st, some h⟩ =
      ⟨some e, some (ffloor (-(st * c2 / Real.log e))), some st, some h⟩ := by
  simp [step, Option.some_orElse', Option.none_orElse']

lemma step_els_h (el st h : ℝ) :
    step ⟨none, some el, some st, some h⟩ =
      ⟨some (Real.exp (-(st * c2) / el)), some el, none, some h⟩ := by
  simp [step, Option.some_orElse', Option.none_orElse']

lemma step_shape2 (e el h : ℝ) :
    step ⟨some e, some el, none, some h⟩ =
      ⟨some e, some el, some (fceil (-el * Real.log e / c2)), some h⟩ := by
  simp [step, Option.some_orElse', Option.none_orElse']

lemma step_shape3 (e el st h : ℝ) :
    step ⟨some e, some el, some st, some h⟩ =
      ⟨some e, some (ffloor (-(st * c2 / Real.log e))), some st, some h⟩ := by
  simp [step, Option.some_orElse', Option.none_orElse']

end bloom

lemma bloom_full_lit (a b c d : ℝ) :
    (⟨some a, some b, some c, some d⟩ : bloom.Parameters).error.isSome = true ∧
      (⟨some a, some b, some c, some d⟩ : bloom.Parameters).elements.isSome = true ∧
      (⟨some a, some b, some c, some d⟩ : bloom.Parameters).storage.isSome = true ∧
      (⟨some a, some b, some c, some d⟩ : bloom.Parameters).hashes.isSome = true ∧
      (∀ stv elv, (⟨some a, some b, some c, some d⟩ : bloom.Parameters).storage = some stv →
        (⟨some a, some b, some c, some d⟩ : bloom.Parameters).elements = some elv →
        bloom.bits_per_element ⟨some a, some b, some c, some d⟩ = some (stv / elv)) := by
  refine ⟨rfl, rfl, rfl, rfl, ?_⟩
  intro stv elv h1 h2
  rw [← Option.some.inj h1, ← Option.some.inj h2]
  rfl

/-- C3: Bloom resolution with exactly two supplied primaries.  For each of the
three supplied pairs (and whether or not the hash count is caller-forced), the
result has error, elements, storage and hashes all populated, and
`bitsPerElement` equals the final storage divided by the final elements. -/
theorem C3_bloom_two_supplied (e : ℝ) (n m : ℕ) (hn : Option ℕ)
    (he : 0 < e) (he1 : e < 1) :
    ((bloom.new (some e) (some n) none hn).error.isSome = true ∧
      (bloom.new (some e) (some n) none hn).elements.isSome = true ∧
      (bloom.new (some e) (some n) none hn).storage.isSome = true ∧
      (bloom.new (some e) (some n) none hn).hashes.isSome = true ∧
      (∀ stv elv, (bloom.new (some e) (some n) none hn).storage = some stv →
        (bloom.new (some e) (some n) none hn).elements = some elv →
        bloom.bits_per_element (bloom.new (some e) (some n) none hn) =
          some (stv / elv))) ∧
    ((bloom.new (some e) none (some m) hn).error.isSome = true ∧
      (bloom.new (some e) none (some m) hn).elements.isSome = true ∧
      (bloom.new (some e) none (some m) hn).storage.isSome = true ∧
      (bloom.new (some e) none (some m) hn).hashes.isSome = true ∧
      (∀ stv elv, (bloom.new (some e) none (some m) hn).storage = some stv →
        (bloom.new (some e) none (some m) hn).elements = some elv →
        bloom.bits_per_element (bloom.new (some e) none (some m) hn) =
          some (stv / elv))) ∧
    ((bloom.new none (some n) (some m) hn).error.isSome = true ∧
      (bloom.new none (some n) (some m) hn).elements.isSome = true ∧
      (bloom.new none (some n) (some m) hn).storage.isSome = true ∧
      (bloom.new none (some n) (some m) hn).hashes.isSome = true ∧
      (∀ stv elv, (bloom.new none (some n) (some m) hn).storage = some stv →
        (bloom.new none (some n) (some m) hn).elements = some elv →
        bloom.bits_per_element (bloom.new none (some n) (some m) hn) =
          some (stv / elv))) := by
  rcases hn with _ | hv
  · refine ⟨?_, ?_, ?_⟩
    · rw [bloom.new]
      simp only [Option.map_some', Option.map_none']
      rw [bloom.infer, bloom.step_ee, bloom.step_shape2, bloom.step_shape3,
        bloom.step_shape3]
      exact bloom_full_lit _ _ _ _
    · rw [bloom.new]
      simp only [Option.map_some', Option.map_none']
      rw [bloom.infer, bloom.step_es, bloom.step_shape2, bloom.step_shape3,
        bloom.step_shape3]
      exact bloom_full_lit _ _ _ _
    · rw [bloom.new]
      simp only [Option.map_some', Option.map_none']
      rw [bloom.infer, bloom.step_els, bloom.step_shape2, bloom.step_shape3,
        bloom.step_shape3]
      exact bloom_full_lit _ _ _ _
  · refine ⟨?_, ?_, ?_⟩
    · rw [bloom.new]
      simp only [Option.map_some', Option.map_none']
      rw [bloom.infer, bloom.step_shape2, bloom.step_shape3, bloom.step_shape3,
        bloom.step_shape3]
      exact bloom_full_lit _ _ _ _
    · rw [bloom.new]
      simp only [Option.map_some', Option.map_none']
      rw [bloom.infer, bloom.step_es_h, bloom.step_shape3, bloom.step_shape3,
        bloom.step_shape3]
      exact bloom_full_lit _ _ _ _
    · rw [bloom.new]
      simp only [Option.map_some', Option.map_none']
      rw [bloom.infer, bloom.step_els_h, bloom.step_shape2, bloom.step_shape3,
        bloom.step_shape3]
      exact bloom_full_lit _ _ _ _

/-- Witness for C3 at `error = 1/2`, `elements = 10`. -/
theorem C3_bloom_two_supplied_witness :
    (0:ℝ) < 1/2 ∧ (1/2:ℝ) < 1 ∧
      (bloom.new (some (1/2)) (some 10) none none).error.isSome = true := by
  refine ⟨by norm_num, by norm_num, ?_⟩
  exact (C3_bloom_two_supplied (1/2) 10 20 none (by norm_num) (by norm_num)).1.1

/-- C7 counterexample: Cuckoo idempotence fails.  From `error = 1/2`,
`elements = 1` (hashes 2, slots 4, util 1) the resolved set has fingerprint 4
and `(elements, storage) = (1, 16)`; re-feeding `(1, 16)` with error absent
derives fingerprint `floor(16*1/1) = 16 ≠ 4`. -/
theorem C7_cuckoo_idem_cex :
    cuckoo.elementsAcc (cuckoo.new (some (1/2)) (some 1) none 2 4 1 false) = some 1 ∧
      cuckoo.storageAcc (cuckoo.new (some (1/2)) (some 1) none 2 4 1 false) = some 16 ∧
      (cuckoo.new (some (1/2)) (some 1) none 2 4 1 false).fingerprint = some (4:ℝ) ∧
      (cuckoo.new none (some 1) (some 16) 2 4 1 false).fingerprint = some (16:ℝ) ∧
      (16:ℝ) ≠ (4:ℝ) := by
  have harg : (1:ℝ) * ((4:ℕ):ℝ) * ((2:ℕ):ℝ) / (1/2) = 16 := by norm_num
  refine ⟨?_, ?_, ?_, ?_, by norm_num⟩
  · rw [cuckoo.elementsAcc, cuckoo.new_A]
    simp only [Option.map_some']
    rw [f64toU64_natCast]
  · rw [cuckoo.storageAcc, cuckoo.new_A]
    simp only [Option.map_some']
    rw [harg, fceil_logb_two_sixteen]
    refine congrArg some ?_
    have hc : (⌈(1:ℝ)/4⌉:ℤ) = 1 := by
      rw [Int.ceil_eq_iff]
      constructor <;> norm_num
    have hf : (⌊(16:ℝ)⌋:ℤ) = 16 := by
      rw [Int.floor_eq_iff]
      constructor <;> norm_num
    norm_num [f64toU64, fceil, hc, hf]
    rfl
  · rw [cuckoo.new_A]
    refine congrArg some ?_
    rw [harg, fceil_logb_two_sixteen]
  · rw [cuckoo.new_C]
    refine congrArg some ?_
    norm_num [ffloor]

lemma ffloor_ffloor (x : ℝ) : ffloor (ffloor x) = ffloor x := by
  simp [ffloor]

lemma c2_pos : (0:ℝ) < bloom.c2 := by
  have h := Real.log_pos (by norm_num : (1:ℝ) < 2)
  rw [bloom.c2]
  exact mul_pos h h

lemma bloom_infer_ee (e : ℝ) (n : ℕ) (he : 0 < e) (he1 : e < 1) (hn : 1 ≤ n) :
    bloom.infer ⟨some e, some ((n:ℕ):ℝ), none, none⟩ =
      ⟨some (Real.exp (-(fceil (-((n:ℕ):ℝ) * Real.log e / bloom.c2) * bloom.c2) /
          ((n:ℕ):ℝ))),
       some ((n:ℕ):ℝ),
       some (fceil (-((n:ℕ):ℝ) * Real.log e / bloom.c2)),
       some (fround (fceil (-((n:ℕ):ℝ) * Real.log e / bloom.c2) / ((n:ℕ):ℝ) *
         Real.log 2))⟩ := by
  have hc2 : (0:ℝ) < bloom.c2 := c2_pos
  have hN : (0:ℝ) < ((n:ℕ):ℝ) := by exact_mod_cast Nat.lt_of_lt_of_le Nat.zero_lt_one hn
  have hloge : Real.log e < 0 := Real.log_neg he he1
  have hypos : 0 < -((n:ℕ):ℝ) * Real.log e / bloom.c2 := by
    apply div_pos _ hc2
    nlinarith
  have hSpos : (0:ℝ) < fceil (-((n:ℕ):ℝ) * Real.log e / bloom.c2) := by
    rw [fceil]
    exact_mod_cast Int.ceil_pos.mpr hypos
  rw [bloom.infer, bloom.step_ee, bloom.step_shape2, Real.log_exp,
    show -((n:ℕ):ℝ) * (-(fceil (-((n:ℕ):ℝ) * Real.log e / bloom.c2) * bloom.c2) /
        ((n:ℕ):ℝ)) / bloom.c2 = fceil (-((n:ℕ):ℝ) * Real.log e / bloom.c2) from by
      field_simp,
    fceil_fceil, bloom.step_shape3, Real.log_exp,
    show -(fceil (-((n:ℕ):ℝ) * Real.log e / bloom.c2) * bloom.c2 /
        (-(fceil (-((n:ℕ):ℝ) * Real.log e / bloom.c2) * bloom.c2) / ((n:ℕ):ℝ))) =
        ((n:ℕ):ℝ) from by
      have hA : fceil (-((n:ℕ):ℝ) * Real.log e / bloom.c2) * bloom.c2 ≠ 0 :=
        (mul_pos hSpos hc2).ne'
      field_simp
      rw [show -(((n:ℕ):ℝ) * Real.log e) = -((n:ℕ):ℝ) * Real.log e from (neg_mul _ _).symm]
      exact mul_div_cancel_left₀ _ hA,
    ffloor_natCast, bloom.step_shape3, Real.log_exp,
    show -(fceil (-((n:ℕ):ℝ) * Real.log e / bloom.c2) * bloom.c2 /
        (-(fceil (-((n:ℕ):ℝ) * Real.log e / bloom.c2) * bloom.c2) / ((n:ℕ):ℝ))) =
        ((n:ℕ):ℝ) from by
      have hA : fceil (-((n:ℕ):ℝ) * Real.log e / bloom.c2) * bloom.c2 ≠ 0 :=
        (mul_pos hSpos hc2).ne'
      field_simp
      rw [show -(((n:ℕ):ℝ) * Real.log e) = -((n:ℕ):ℝ) * Real.log e from (neg_mul _ _).symm]
      exact mul_div_cancel_left₀ _ hA,
    ffloor_natCast]

lemma bloom_infer_es (e : ℝ) (m : ℕ) (he : 0 < e) (he1 : e < 1) (hm : 1 ≤ m)
    (hEL : (0:ℝ) < ffloor (-(((m:ℕ):ℝ) * bloom.c2 / Real.log e))) :
    bloom.infer ⟨some e, none, some ((m:ℕ):ℝ), none⟩ =
      ⟨some (Real.exp (-(((m:ℕ):ℝ) * bloom.c2) /
          ffloor (-(((m:ℕ):ℝ) * bloom.c2 / Real.log e)))),
       some (ffloor (-(((m:ℕ):ℝ) * bloom.c2 / Real.log e))),
       some ((m:ℕ):ℝ),
       some (fround (((m:ℕ):ℝ) / ffloor (-(((m:ℕ):ℝ) * bloom.c2 / Real.log e)) *
         Real.log 2))⟩ := by
  have hc2 : (0:ℝ) < bloom.c2 := c2_pos
  have hM : (0:ℝ) < ((m:ℕ):ℝ) := by exact_mod_cast Nat.lt_of_lt_of_le Nat.zero_lt_one hm
  have hELne : ffloor (-(((m:ℕ):ℝ) * bloom.c2 / Real.log e)) ≠ 0 := hEL.ne'
  have hB : ((m:ℕ):ℝ) * bloom.c2 ≠ 0 := (mul_pos hM hc2).ne'
  rw [bloom.infer, bloom.step_es, bloom.step_shape2, Real.log_exp,
    show -ffloor (-(((m:ℕ):ℝ) * bloom.c2 / Real.log e)) *
        (-(((m:ℕ):ℝ) * bloom.c2) / ffloor (-(((m:ℕ):ℝ) * bloom.c2 / Real.log e))) /
        bloom.c2 = ((m:ℕ):ℝ) from by
      have heq : -(((m:ℕ):ℝ) * bloom.c2 / Real.log e) =
          -(((m:ℕ):ℝ) * bloom.c2) / Real.log e := (neg_div _ _).symm
      have hELne2 : ffloor (-(((m:ℕ):ℝ) * bloom.c2) / Real.log e) ≠ 0 := by
        rw [← heq]; exact hELne
      field_simp,
    fceil_natCast, bloom.step_shape3, Real.log_exp,
    show -(((m:ℕ):ℝ) * bloom.c2 /
        (-(((m:ℕ):ℝ) * bloom.c2) / ffloor (-(((m:ℕ):ℝ) * bloom.c2 / Real.log e)))) =
        ffloor (-(((m:ℕ):ℝ) * bloom.c2 / Real.log e)) from by
      field_simp,
    ffloor_ffloor, bloom.step_shape3, Real.log_exp,
    show -(((m:ℕ):ℝ) * bloom.c2 /
        (-(((m:ℕ):ℝ) * bloom.c2) / ffloor (-(((m:ℕ):ℝ) * bloom.c2 / Real.log e)))) =
        ffloor (-(((m:ℕ):ℝ) * bloom.c2 / Real.log e)) from by
      field_simp,
    ffloor_ffloor]

lemma bloom_infer_els (n m : ℕ) (hn : 1 ≤ n) (hm : 1 ≤ m) :
    bloom.infer ⟨none, some ((n:ℕ):ℝ), some ((m:ℕ):ℝ), none⟩ =
      ⟨some (Real.exp (-(((m:ℕ):ℝ) * bloom.c2) / ((n:ℕ):ℝ))),
       some ((n:ℕ):ℝ), some ((m:ℕ):ℝ),
       some (fround (((m:ℕ):ℝ) / ((n:ℕ):ℝ) * Real.log 2))⟩ := by
  have hc2 : (0:ℝ) < bloom.c2 := c2_pos
  have hN : (0:ℝ) < ((n:ℕ):ℝ) := by exact_mod_cast Nat.lt_of_lt_of_le Nat.zero_lt_one hn
  have hM : (0:ℝ) < ((m:ℕ):ℝ) := by exact_mod_cast Nat.lt_of_lt_of_le Nat.zero_lt_one hm
  have hB : ((m:ℕ):ℝ) * bloom.c2 ≠ 0 := (mul_pos hM hc2).ne'
  rw [bloom.infer, bloom.step_els, bloom.step_shape2, Real.log_exp,
    show -((n:ℕ):ℝ) * (-(((m:ℕ):ℝ) * bloom.c2) / ((n:ℕ):ℝ)) / bloom.c2 =
        ((m:ℕ):ℝ) from by
      field_simp,
    fceil_natCast, bloom.step_shape3, Real.log_exp,
    show -(((m:ℕ):ℝ) * bloom.c2 / (-(((m:ℕ):ℝ) * bloom.c2) / ((n:ℕ):ℝ))) =
        ((n:ℕ):ℝ) from by
      field_simp,
    ffloor_natCast, bloom.step_shape3, Real.log_exp,
    show -(((m:ℕ):ℝ) * bloom.c2 / (-(((m:ℕ):ℝ) * bloom.c2) / ((n:ℕ):ℝ))) =
        ((n:ℕ):ℝ) from by
      field_simp,
    ffloor_natCast]

/-- C7 amended: Bloom idempotence (hash count not caller-forced).  Re-feeding
the resolved `(elements, storage)` accessor pair with error absent reproduces
the entire resolved parameter set — in particular the same achieved error and
hashes — for originals resolved from `(error, elements)`, from
`(error, storage)` (when the derived element count is at least 1, i.e.
`-ln error ≤ storage·ln²2`), and from `(elements, storage)`. -/
theorem C7_bloom_idem_amended (e : ℝ) (n m : ℕ) (he : 0 < e) (he1 : e < 1)
    (hn : 1 ≤ n) (hm : 1 ≤ m)
    (hme : -Real.log e ≤ ((m:ℕ):ℝ) * bloom.c2) :
    (bloom.new none
        (bloom.elementsAcc (bloom.new (some e) (some n) none none))
        (bloom.storageAcc (bloom.new (some e) (some n) none none)) none =
      bloom.new (some e) (some n) none none) ∧
    (bloom.new none
        (bloom.elementsAcc (bloom.new (some e) none (some m) none))
        (bloom.storageAcc (bloom.new (some e) none (some m) none)) none =
      bloom.new (some e) none (some m) none) ∧
    (bloom.new none
        (bloom.elementsAcc (bloom.new none (some n) (some m) none))
        (bloom.storageAcc (bloom.new none (some n) (some m) none)) none =
      bloom.new none (some n) (some m) none) := by
  have hc2 : (0:ℝ) < bloom.c2 := c2_pos
  have hN : (0:ℝ) < ((n:ℕ):ℝ) := by exact_mod_cast Nat.lt_of_lt_of_le Nat.zero_lt_one hn
  have hloge : Real.log e < 0 := Real.log_neg he he1
  refine ⟨?_, ?_, ?_⟩
  · -- original resolved from (error, elements)
    have hyS : (0:ℝ) ≤ -((n:ℕ):ℝ) * Real.log e / bloom.c2 := by
      apply le_of_lt
      apply div_pos _ hc2
      nlinarith
    have hnew1 : bloom.new (some e) (some n) none none =
        bloom.infer ⟨some e, some ((n:ℕ):ℝ), none, none⟩ := by
      rw [bloom.new]
      simp only [Option.map_some', Option.map_none']
    have hinfer := bloom_infer_ee e n he he1 hn
    rw [hnew1, hinfer, bloom.elementsAcc, bloom.storageAcc]
    simp only [Option.map_some']
    rw [f64toU64_natCast, bloom.new]
    simp only [Option.map_some', Option.map_none']
    rw [f64toU64_fceil_cast _ hyS, ← hinfer, bloom.infer, bloom.infer,
      show bloom.step ⟨none, some ((n:ℕ):ℝ),
          some (fceil (-((n:ℕ):ℝ) * Real.log e / bloom.c2)), none⟩ =
        bloom.step ⟨some e, some ((n:ℕ):ℝ), none, none⟩ from by
          rw [bloom.step_els, bloom.step_ee]]
  · -- original resolved from (error, storage)
    have hz : (1:ℝ) ≤ -(((m:ℕ):ℝ) * bloom.c2 / Real.log e) := by
      rw [show -(((m:ℕ):ℝ) * bloom.c2 / Real.log e) =
          ((m:ℕ):ℝ) * bloom.c2 / (-Real.log e) from by
        rw [div_neg]]
      rw [le_div_iff₀ (neg_pos.mpr hloge), one_mul]
      linarith
    have hz0 : (0:ℝ) ≤ -(((m:ℕ):ℝ) * bloom.c2 / Real.log e) :=
      le_trans zero_le_one hz
    have hEL : (0:ℝ) < ffloor (-(((m:ℕ):ℝ) * bloom.c2 / Real.log e)) := by
      rw [ffloor]
      have h1i : (1:ℤ) ≤ ⌊-(((m:ℕ):ℝ) * bloom.c2 / Real.log e)⌋ := by
        rw [Int.le_floor]
        exact_mod_cast hz
      exact_mod_cast lt_of_lt_of_le zero_lt_one h1i
    have hnew2 : bloom.new (some e) none (some m) none =
        bloom.infer ⟨some e, none, some ((m:ℕ):ℝ), none⟩ := by
      rw [bloom.new]
      simp only [Option.map_some', Option.map_none']
    have hinfer := bloom_infer_es e m he he1 hm hEL
    rw [hnew2, hinfer, bloom.elementsAcc, bloom.storageAcc]
    simp only [Option.map_some']
    rw [f64toU64_natCast, bloom.new]
    simp only [Option.map_some', Option.map_none']
    rw [f64toU64_ffloor_cast _ hz0, ← hinfer, bloom.infer, bloom.infer,
      show bloom.step ⟨none, some (ffloor (-(((m:ℕ):ℝ) * bloom.c2 / Real.log e))),
          some ((m:ℕ):ℝ), none⟩ =
        bloom.step ⟨some e, none, some ((m:ℕ):ℝ), none⟩ from by
          rw [bloom.step_els, bloom.step_es]]
  · -- original resolved from (elements, storage)
    have hnew3 : bloom.new none (some n) (some m) none =
        bloom.infer ⟨none, some ((n:ℕ):ℝ), some ((m:ℕ):ℝ), none⟩ := by
      rw [bloom.new]
      simp only [Option.map_some', Option.map_none']
    have hinfer := bloom_infer_els n m hn hm
    rw [hnew3, hinfer, bloom.elementsAcc, bloom.storageAcc]
    simp only [Option.map_some']
    simp only [f64toU64_natCast]
    rw [hnew3, hinfer]

/-- Witness for C7 amended at `error = 1/2`, `elements = 1`, `storage = 2`. -/
theorem C7_bloom_idem_amended_witness :
    (0:ℝ) < 1/2 ∧ (1/2:ℝ) < 1 ∧
      bloom.new none
          (bloom.elementsAcc (bloom.new (some (1/2)) (some 1) none none))
          (bloom.storageAcc (bloom.new (some (1/2)) (some 1) none none)) none =
        bloom.new (some (1/2)) (some 1) none none := by
  refine ⟨by norm_num, by norm_num, ?_⟩
  exact (C7_bloom_idem_amended (1/2) 1 2 (by norm_num) (by norm_num) (by norm_num)
    (by norm_num) (by
      rw [show ((1:ℝ)/2) = 2⁻¹ by norm_num, Real.log_inv, neg_neg]
      have h := Real.log_two_gt_d9
      have hp : (0:ℝ) < Real.log 2 := by linarith
      rw [bloom.c2]
      push_cast
      nlinarith [mul_lt_mul_of_pos_right h hp])).1

end Probset

end
